import Mathlib

/-!
# Verification of the RAG system core (chunker, retrieval, cache, resilient client)

Shallow embedding of the Go sources of `rag-system`:
* `src/infrastructure/repository.go` — chunker (`splitIntoChunks`, `isBreakPoint`),
  SQLite-backed repository (`SaveDocument`, `FindRelevantChunks`, fallback LIKE search),
* `src/infrastructure/ai/client.go` — resilient generation client (`GenerateResponse`
  retry loop, cache key, file cache, FTS5 ranked search `findRelevantChunksFTS5`).

Go strings are modelled as `List Char` (one list element per byte; all inputs of
interest are ASCII, where Go's byte indexing agrees with the character view).
Go `float64` scores are modelled as `ℚ`: the claims under verification are about
the exact algebra of min-max scaling and ratio similarities, which both `float64`
and `ℚ` satisfy at the stated points (0, 1/2, 1, equalities of the form
`(a-a)/d = 0` and `d/d = 1`).
The SQLite database is modelled as an abstract row source (`DB`): each SQL query
shape appearing in the code is one field, so the Lean functions mirror exactly the
Go post-processing of the returned rows.
-/

namespace RAG

/-- Embeds `domain.Chunk` from `src/domain/models.go`: a fragment row plus its transient
similarity score. -/
structure Chunk where
  ID : List Char
  DocumentID : List Char
  Content : List Char
  Similarity : ℚ
deriving DecidableEq, Repr

/-- Embeds `domain.Document` from `src/domain/models.go` (creation timestamp omitted:
no claim mentions it and it does not feed any modelled computation). -/
structure Document where
  ID : List Char
  Title : List Char
  Content : List Char
deriving DecidableEq, Repr

/-! ## Chunker (`splitIntoChunks`, `isBreakPoint` in repository.go) -/

/-- Embeds `isBreakPoint` from repository.go: the switch over `'.', '!', '?', ';', ':',
',', ' ', '\n', '\t'`. -/
def isBreakPoint (r : Char) : Bool :=
  r = '.' ∨ r = '!' ∨ r = '?' ∨ r = ';' ∨ r = ':' ∨ r = ',' ∨ r = ' ' ∨ r = '\n' ∨ r = '\t'

/-- The backward scan `end := chunkSize; for end > 0 && !isBreakPoint(text[end]) { end-- }`
from `splitIntoChunks`: returns the largest index `i ∈ [1, e]` with
`isBreakPoint (text[i])`, else `0`.  Out-of-range reads never happen at the call
site (`e < text.length` there); the default `'a'` is not a break character, so it
behaves like the loop's "keep scanning". -/
def scanBreak (text : List Char) (e : Nat) : Nat :=
  match e with
  | 0 => 0
  | e' + 1 => if isBreakPoint (text.getD (e' + 1) 'a') then e' + 1 else scanBreak text e'

/-- Embeds `splitIntoChunks` from repository.go, with explicit fuel.  The Go `for` loop
need not terminate (with `chunkSize = 0` and nonempty text it loops forever), so
the embedding returns `none` when the iteration budget is exhausted: `some cs`
means the Go loop terminates with fragments `cs`. -/
def splitIntoChunksFuel : Nat → List Char → Nat → Option (List (List Char))
  | _, [], _ => some []
  | 0, _ :: _, _ => none
  | fuel + 1, text, chunkSize =>
    if text.length ≤ chunkSize then some [text]
    else
      let e0 := scanBreak text chunkSize
      let e := if e0 = 0 then chunkSize else e0
      match splitIntoChunksFuel fuel (text.drop e) chunkSize with
      | none => none
      | some cs => some (text.take e :: cs)

/-- The Go loop terminates on this input (some fuel suffices). -/
def splitTerminates (text : List Char) (chunkSize : Nat) : Prop :=
  ∃ fuel cs, splitIntoChunksFuel fuel text chunkSize = some cs

/-- Total wrapper used at the repository's only call site (`chunkSize = 500 ≥ 1`,
where `text.length + 1` units of fuel provably suffice). -/
def splitIntoChunks (text : List Char) (chunkSize : Nat) : List (List Char) :=
  (splitIntoChunksFuel (text.length + 1) text chunkSize).getD []

theorem scanBreak_le (text : List Char) (e : Nat) : scanBreak text e ≤ e := by
  induction e with
  | zero => simp [scanBreak]
  | succ e' ih =>
    unfold scanBreak
    split
    · exact Nat.le_refl _
    · exact Nat.le_succ_of_le ih

theorem scanBreak_eq_zero_of_no_break (text : List Char) (e : Nat)
    (h : ∀ i, 1 ≤ i → i ≤ e → isBreakPoint (text.getD i 'a') = false) :
    scanBreak text e = 0 := by
  induction e with
  | zero => simp [scanBreak]
  | succ e' ih =>
    unfold scanBreak
    rw [h (e' + 1) (Nat.succ_le_succ (Nat.zero_le _)) (Nat.le_refl _)]
    simp only [Bool.false_eq_true, if_false]
    exact ih fun i h1 h2 => h i h1 (Nat.le_succ_of_le h2)

theorem scanBreak_pos_of_break (text : List Char) (e i : Nat)
    (h1 : 1 ≤ i) (h2 : i ≤ e) (h : isBreakPoint (text.getD i 'a') = true) :
    1 ≤ scanBreak text e := by
  induction e with
  | zero => omega
  | succ e' ih =>
    unfold scanBreak
    split
    · omega
    · rcases Nat.lt_or_ge i (e' + 1) with hlt | hge
      · exact ih (Nat.le_of_lt_succ hlt)
      · have : i = e' + 1 := Nat.le_antisymm h2 hge
        subst this
        simp_all

/-- Concatenation of the produced fragments reconstructs the input. -/
theorem splitIntoChunksFuel_join : ∀ (fuel : Nat) (text : List Char) (chunkSize : Nat)
    (cs : List (List Char)), splitIntoChunksFuel fuel text chunkSize = some cs →
    cs.flatten = text := by
  intro fuel
  induction fuel with
  | zero =>
    intro text chunkSize cs h
    cases text with
    | nil => simp [splitIntoChunksFuel] at h; simp [h]
    | cons a t => simp [splitIntoChunksFuel] at h
  | succ fuel ih =>
    intro text chunkSize cs h
    cases text with
    | nil => simp [splitIntoChunksFuel] at h; simp [h]
    | cons a t =>
      unfold splitIntoChunksFuel at h
      split at h
      · simp at h; simp [← h]
      · dsimp only at h
        split at h
        · exact absurd h (by simp)
        · rename_i cs' heq
          simp only [Option.some.injEq] at h
          subst h
          simp only [List.flatten_cons]
          rw [ih _ _ _ heq, List.take_append_drop]

/-- No produced fragment is longer than `chunkSize`. -/
theorem splitIntoChunksFuel_length_le : ∀ (fuel : Nat) (text : List Char) (chunkSize : Nat)
    (cs : List (List Char)), splitIntoChunksFuel fuel text chunkSize = some cs →
    ∀ c ∈ cs, c.length ≤ chunkSize := by
  intro fuel
  induction fuel with
  | zero =>
    intro text chunkSize cs h
    cases text with
    | nil => simp [splitIntoChunksFuel] at h; simp [h]
    | cons a t => simp [splitIntoChunksFuel] at h
  | succ fuel ih =>
    intro text chunkSize cs h
    cases text with
    | nil => simp [splitIntoChunksFuel] at h; simp [h]
    | cons a t =>
      unfold splitIntoChunksFuel at h
      split at h
      · rename_i hle
        simp at h
        subst h
        simpa using hle
      · dsimp only at h
        split at h
        · exact absurd h (by simp)
        · rename_i cs' heq
          simp only [Option.some.injEq] at h
          subst h
          intro c hc
          rcases List.mem_cons.mp hc with rfl | hc'
          · rw [List.length_take]
            split
            · exact Nat.min_le_left _ _
            · exact le_trans (Nat.min_le_left _ _) (scanBreak_le _ _)
          · exact ih _ _ _ heq c hc'

/-- If no break character sits in the lookback window `[1, chunkSize]`, the first
cut is a hard cut of exactly `chunkSize` characters. -/
theorem splitIntoChunksFuel_hard_cut (fuel : Nat) (text : List Char) (chunkSize : Nat)
    (cs : List (List Char)) (h : splitIntoChunksFuel fuel text chunkSize = some cs)
    (hlong : chunkSize < text.length)
    (hnb : ∀ i, 1 ≤ i → i ≤ chunkSize → isBreakPoint (text.getD i 'a') = false) :
    ∃ c cs2, cs = c :: cs2 ∧ c.length = chunkSize := by
  cases fuel with
  | zero =>
    cases text with
    | nil => simp at hlong
    | cons a t => simp [splitIntoChunksFuel] at h
  | succ fuel =>
    cases text with
    | nil => simp at hlong
    | cons a t =>
      unfold splitIntoChunksFuel at h
      rw [if_neg (by omega)] at h
      dsimp only at h
      rw [scanBreak_eq_zero_of_no_break _ _ hnb] at h
      simp only [if_pos rfl] at h
      split at h
      · exact absurd h (by simp)
      · rename_i cs' heq
        simp only [Option.some.injEq] at h
        refine ⟨(a :: t).take chunkSize, cs', h.symm, ?_⟩
        rw [List.length_take]
        omega

/-- With a positive chunk size every cut makes progress, so fuel equal to the text
length is enough for the loop to finish. -/
theorem splitIntoChunksFuel_isSome (chunkSize : Nat) (hpos : 1 ≤ chunkSize) :
    ∀ (fuel : Nat) (text : List Char), text.length ≤ fuel →
    (splitIntoChunksFuel fuel text chunkSize).isSome := by
  intro fuel
  induction fuel with
  | zero =>
    intro text hle
    cases text with
    | nil => simp [splitIntoChunksFuel]
    | cons a t => simp at hle
  | succ fuel ih =>
    intro text hle
    cases text with
    | nil => simp [splitIntoChunksFuel]
    | cons a t =>
      unfold splitIntoChunksFuel
      split
      · simp
      · rename_i hlong
        dsimp only
        have he : 1 ≤ (if scanBreak (a :: t) chunkSize = 0 then chunkSize
            else scanBreak (a :: t) chunkSize) := by
          split
          · exact hpos
          · omega
        have hdrop : ((a :: t).drop (if scanBreak (a :: t) chunkSize = 0 then chunkSize
            else scanBreak (a :: t) chunkSize)).length ≤ fuel := by
          rw [List.length_drop]
          simp only [List.length_cons] at hle ⊢
          omega
        have := ih _ hdrop
        cases hsm : splitIntoChunksFuel fuel ((a :: t).drop _) chunkSize with
        | none => rw [hsm] at this; simp at this
        | some cs => simp

/-- With chunk size `0` and nonempty text the cut is `text[:0] = ""`, the
remainder is the whole text, and the Go loop never terminates: every fuel budget
is exhausted. -/
theorem splitIntoChunksFuel_zero_none : ∀ (fuel : Nat) (text : List Char),
    text ≠ [] → splitIntoChunksFuel fuel text 0 = none := by
  intro fuel
  induction fuel with
  | zero =>
    intro text hne
    cases text with
    | nil => exact absurd rfl hne
    | cons a t => simp [splitIntoChunksFuel]
  | succ fuel ih =>
    intro text hne
    cases text with
    | nil => exact absurd rfl hne
    | cons a t =>
      unfold splitIntoChunksFuel
      rw [if_neg (by simp)]
      dsimp only
      have : scanBreak (a :: t) 0 = 0 := by simp [scanBreak]
      rw [this]
      simp [ih (a :: t) hne]

/-- C1: for every input text and every target size, whenever the chunking loop
terminates (`= some cs`), the produced fragments concatenate to the original text
exactly, no fragment is longer than the target size, and if no break character
occurs in the lookback window `[1, target_size]` the first cut is a hard cut of
exactly `target_size` characters. -/
theorem splitIntoChunks_lossless_bounded_hardCut (fuel : Nat) (text : List Char)
    (chunkSize : Nat) (cs : List (List Char))
    (h : splitIntoChunksFuel fuel text chunkSize = some cs) :
    cs.flatten = text ∧ (∀ c ∈ cs, c.length ≤ chunkSize) ∧
    (chunkSize < text.length →
      (∀ i, 1 ≤ i → i ≤ chunkSize → isBreakPoint (text.getD i 'a') = false) →
      ∃ c cs2, cs = c :: cs2 ∧ c.length = chunkSize) :=
  ⟨splitIntoChunksFuel_join fuel text chunkSize cs h,
   splitIntoChunksFuel_length_le fuel text chunkSize cs h,
   fun hlong hnb => splitIntoChunksFuel_hard_cut fuel text chunkSize cs h hlong hnb⟩

/-- Witness for C1 on `"abcdefg"` with target size `3` (a text without any break
character, so the hard-cut clause fires). -/
theorem splitIntoChunks_lossless_bounded_hardCut_witness :
    ([['a', 'b', 'c'], ['d', 'e', 'f'], ['g']] : List (List Char)).flatten =
        ['a', 'b', 'c', 'd', 'e', 'f', 'g'] ∧
    (∀ c ∈ ([['a', 'b', 'c'], ['d', 'e', 'f'], ['g']] : List (List Char)), c.length ≤ 3) ∧
    (3 < (['a', 'b', 'c', 'd', 'e', 'f', 'g'] : List Char).length →
      (∀ i, 1 ≤ i → i ≤ 3 →
        isBreakPoint ((['a', 'b', 'c', 'd', 'e', 'f', 'g'] : List Char).getD i 'a') = false) →
      ∃ c cs2, ([['a', 'b', 'c'], ['d', 'e', 'f'], ['g']] : List (List Char)) = c :: cs2 ∧
        c.length = 3) :=
  splitIntoChunks_lossless_bounded_hardCut 8 ['a', 'b', 'c', 'd', 'e', 'f', 'g'] 3
    [['a', 'b', 'c'], ['d', 'e', 'f'], ['g']] (by decide)

/-- C5 counterexample: chunking `"A cat sat on a mat."` at target size 6 does not
yield `["A cat ", "sat on ", "a mat."]` — the code cuts *before* the break
character it finds, so the break character starts the next fragment. -/
theorem chunk_scenario_counterexample :
    splitIntoChunks "A cat sat on a mat.".toList 6 ≠
      ["A cat ".toList, "sat on ".toList, "a mat.".toList] := by
  decide

/-- C5 (amended): chunking `"A cat sat on a mat."` at target size 6 yields exactly
`["A cat", " sat", " on a", " mat."]`, and the concatenation of the produced
fragments reconstructs the original text. -/
theorem chunk_scenario_amended :
    splitIntoChunks "A cat sat on a mat.".toList 6 =
      ["A cat".toList, " sat".toList, " on a".toList, " mat.".toList] ∧
    (splitIntoChunks "A cat sat on a mat.".toList 6).flatten =
      "A cat sat on a mat.".toList := by
  constructor <;> decide

/-- C8 counterexample: the chunking loop does not terminate on every input — with
`target_size = 0` and the nonempty text `"a"` the cut is made at position 0, no
progress happens, and no fuel budget suffices. -/
theorem split_terminates_counterexample : ¬ splitTerminates ['a'] 0 := by
  rintro ⟨fuel, cs, h⟩
  rw [splitIntoChunksFuel_zero_none fuel ['a'] (by simp)] at h
  exact Option.noConfusion h

/-- C8 (amended): for every text and every positive target size the chunking loop
terminates — when no break character is found before position 0 the cut is made
exactly at `target_size`, so each iteration strictly shortens the text. -/
theorem split_terminates_of_pos (text : List Char) (chunkSize : Nat)
    (hpos : 1 ≤ chunkSize) : splitTerminates text chunkSize := by
  have h := splitIntoChunksFuel_isSome chunkSize hpos text.length text (Nat.le_refl _)
  rcases Option.isSome_iff_exists.mp h with ⟨cs, hcs⟩
  exact ⟨text.length, cs, hcs⟩

/-- Witness for the amended C8 at text `"hi"`, target size 1. -/
theorem split_terminates_of_pos_witness : (1 : Nat) ≤ 1 ∧ splitTerminates ['h', 'i'] 1 :=
  ⟨Nat.le_refl 1, split_terminates_of_pos ['h', 'i'] 1 (Nat.le_refl 1)⟩

/-! ## Go string helpers (`strings.TrimSpace`, `Fields`, `ToLower`, `Contains`) -/

/-- Embeds `unicode.IsSpace` restricted to the ASCII range (the model's alphabet). -/
def isSpaceGo (c : Char) : Bool :=
  c = ' ' ∨ c = '\t' ∨ c = '\n' ∨ c = '\x0b' ∨ c = '\x0c' ∨ c = '\r'

/-- Embeds `strings.TrimSpace`: drop whitespace from both ends. -/
def trimSpace (s : List Char) : List Char :=
  ((s.dropWhile isSpaceGo).reverse.dropWhile isSpaceGo).reverse

def fieldsAux : List Char → List Char → List (List Char)
  | [], acc => if acc = [] then [] else [acc.reverse]
  | c :: rest, acc =>
    if isSpaceGo c then
      if acc = [] then fieldsAux rest [] else acc.reverse :: fieldsAux rest []
    else fieldsAux rest (c :: acc)

/-- Embeds `strings.Fields`: split around runs of whitespace, dropping empty words. -/
def fields (s : List Char) : List (List Char) := fieldsAux s []

/-- Embeds `strings.ToLower` on the ASCII range. -/
def toLowerStr (s : List Char) : List Char := s.map Char.toLower

/-- Embeds `strings.Contains`: `needle` occurs as a contiguous substring of `hay`
(always true for an empty needle). -/
def containsStr (hay needle : List Char) : Bool :=
  match hay with
  | [] => needle.isEmpty
  | _ :: t => needle.isPrefixOf hay || containsStr t needle

/-- Embeds `sanitizeInput` from client.go: trim, strip null bytes, cap the length
(`maxLength > 0` only). -/
def sanitizeInput (input : List Char) (maxLength : Nat) : List Char :=
  let cleaned := trimSpace input
  let cleaned := cleaned.filter (fun c => c ≠ '\x00')
  if 0 < maxLength ∧ maxLength < cleaned.length then cleaned.take maxLength else cleaned

/-! ## Response cache (file cache in client.go)

The cache directory is modelled as its filesystem state: a map from file name to
file contents.  `saveCachedResponse` writes `<key>.txt`; `getCachedResponse`
reads it back, trims it, and treats a whitespace-only file as a miss;
`ClearCache` removes every `*.txt` file in the directory. -/

def CacheState := List Char → Option (List Char)

def cacheFileName (cacheKey : List Char) : List Char := cacheKey ++ ".txt".toList

/-- Embeds `getCachedResponse` from client.go: read `<key>.txt`, trim the contents,
report a miss when the file is absent or trims to empty. -/
def getCachedResponse (st : CacheState) (cacheKey : List Char) : Option (List Char) :=
  match st (cacheFileName cacheKey) with
  | none => none
  | some data =>
    let response := trimSpace data
    if response = [] then none else some response

/-- Embeds `saveCachedResponse` from client.go: write the response to `<key>.txt`. -/
def saveCachedResponse (st : CacheState) (cacheKey response : List Char) : CacheState :=
  fun f => if f = cacheFileName cacheKey then some response else st f

/-- Embeds `ClearCache` from client.go: remove every `*.txt` file of the cache
directory. -/
def clearCache (st : CacheState) : CacheState :=
  fun f => if ".txt".toList.reverse.isPrefixOf f.reverse then none else st f

/-- The empty cache directory. -/
def emptyCache : CacheState := fun _ => none

theorem isPrefixOf_append_self : ∀ (l m : List Char), l.isPrefixOf (l ++ m) = true := by
  intro l
  induction l with
  | nil => intro m; simp [List.isPrefixOf]
  | cons a t ih => intro m; simp [List.isPrefixOf, ih]

/-- C4 counterexample: `put("k", "x ")` followed by `get("k")` returns `"x"`,
not the stored value `"x "` — the read path trims the file contents. -/
theorem cache_roundtrip_counterexample :
    getCachedResponse (saveCachedResponse emptyCache ['k'] ['x', ' ']) ['k'] ≠
      some ['x', ' '] := by
  decide

/-- C4 (amended): `put(k, v)` followed by `get(k)` returns `v` trimmed of
surrounding whitespace — and nothing at all when `v` is empty or whitespace-only;
after `clear()`, `get(k)` returns nothing for every key. -/
theorem cache_roundtrip_amended (st : CacheState) (k v : List Char) :
    getCachedResponse (saveCachedResponse st k v) k =
      (if trimSpace v = [] then none else some (trimSpace v)) ∧
    getCachedResponse (clearCache st) k = none := by
  constructor
  · simp [getCachedResponse, saveCachedResponse]
  · have h : (".txt".toList.reverse.isPrefixOf (cacheFileName k).reverse) = true := by
      rw [cacheFileName, List.reverse_append]
      exact isPrefixOf_append_self _ _
    unfold getCachedResponse clearCache
    rw [if_pos h]

/-! ## Cache fingerprint (`getCacheKey` in client.go) -/

/-- The string hashed by `getCacheKey`: the (already sanitized) query followed by
each fragment's ID and its content truncated to the first 100 bytes
(`chunk.Content[:min(100, len(chunk.Content))]`). -/
def cacheKeyData (query : List Char) (chunks : List Chunk) : List Char :=
  chunks.foldl (fun keyData chunk => keyData ++ chunk.ID ++ chunk.Content.take 100) query

/-- Embeds `getCacheKey` from client.go: the md5 hex digest of `cacheKeyData`.  MD5 is
modelled as an uninterpreted parameter `md5hex`: the verified claims only use
that the digest is a deterministic function of its input string. -/
def getCacheKey (md5hex : List Char → List Char) (query : List Char)
    (chunks : List Chunk) : List Char :=
  md5hex (cacheKeyData query chunks)

theorem cacheKeyData_congr (q : List Char) :
    ∀ (cs1 cs2 : List Chunk), List.Forall₂
      (fun a b => a.ID = b.ID ∧ a.Content.take 100 = b.Content.take 100) cs1 cs2 →
    cacheKeyData q cs1 = cacheKeyData q cs2 := by
  suffices h : ∀ (cs1 cs2 : List Chunk), List.Forall₂
      (fun a b => a.ID = b.ID ∧ a.Content.take 100 = b.Content.take 100) cs1 cs2 →
      ∀ acc : List Char, cs1.foldl (fun keyData chunk =>
        keyData ++ chunk.ID ++ chunk.Content.take 100) acc =
      cs2.foldl (fun keyData chunk => keyData ++ chunk.ID ++ chunk.Content.take 100) acc by
    intro cs1 cs2 hf
    exact h cs1 cs2 hf q
  intro cs1 cs2 hf
  induction hf with
  | nil => intro acc; rfl
  | cons hab _ ih =>
    intro acc
    simp only [List.foldl_cons]
    rw [hab.1, hab.2]
    exact ih _

/-- C7: the cache fingerprint is a pure function of the sanitized query, the
ordered fragment IDs, and each fragment's content truncated to its 100-byte
prefix — identical such inputs give identical fingerprints, and fragment lists
differing only beyond the truncation boundary collide. -/
theorem cacheKey_pure_of_truncated_inputs (md5hex : List Char → List Char)
    (q1 q2 : List Char) (cs1 cs2 : List Chunk)
    (hq : sanitizeInput q1 1000 = sanitizeInput q2 1000)
    (hcs : List.Forall₂
      (fun a b => a.ID = b.ID ∧ a.Content.take 100 = b.Content.take 100) cs1 cs2) :
    getCacheKey md5hex (sanitizeInput q1 1000) cs1 =
      getCacheKey md5hex (sanitizeInput q2 1000) cs2 := by
  unfold getCacheKey
  rw [hq, cacheKeyData_congr _ cs1 cs2 hcs]

/-- Witness for C7: two single-fragment lists whose contents agree on the first
100 bytes and differ at byte 101 produce the same fingerprint. -/
theorem cacheKey_pure_of_truncated_inputs_witness :
    getCacheKey id (sanitizeInput ['q'] 1000)
      [⟨['i'], ['d'], List.replicate 100 'a' ++ ['b'], 0⟩] =
    getCacheKey id (sanitizeInput ['q'] 1000)
      [⟨['i'], ['d'], List.replicate 100 'a' ++ ['c'], 0⟩] :=
  cacheKey_pure_of_truncated_inputs id ['q'] ['q'] _ _ rfl
    (List.Forall₂.cons ⟨rfl, by decide⟩ List.Forall₂.nil)

/-! ## Retrieval index (`FindRelevantChunks` and helpers in repository.go)

The SQLite engine is modelled as an abstract row source: one field per SQL query
shape appearing in the code.  Everything the Go code computes *after* the rows
come back (similarity scores, min-max normalization, threshold filtering) is
embedded exactly. -/

structure DB where
  /-- Embeds `SELECT id, document_id, content FROM chunks LIMIT ?` -/
  chunksLimit : Int → List Chunk
  /-- Embeds `SELECT ... FROM chunks WHERE content LIKE ? LIMIT ?` (single word) -/
  likeOne : List Char → Int → List Chunk
  /-- Embeds `SELECT ... FROM chunks WHERE content LIKE ? OR ... LIMIT ?` (many words) -/
  likeMany : List (List Char) → Int → List Chunk
  /-- Embeds `SELECT ..., bm25(chunks_fts) FROM chunks JOIN chunks_fts ... WHERE
  chunks_fts MATCH ? ORDER BY rank_score LIMIT ?` — each row with its raw
  bm25 rank score. -/
  ftsMatch : List Char → Int → List (Chunk × ℚ)

/-- Embeds `strings.Join` with a separator. -/
def joinWith (sep : List Char) : List (List Char) → List Char
  | [] => []
  | [w] => w
  | w :: ws => w ++ sep ++ joinWith sep ws

/-- Embeds `formatFTS5Query` from repository.go: whitespace-tokenize the trimmed query,
strip `"`/`'`/`\` from every word, drop words that become empty, join the
survivors with `" AND "`. -/
def formatFTS5Query (query : List Char) : List Char :=
  let words := fields (trimSpace query)
  let escapedWords := (words.map fun w =>
    trimSpace (w.filter fun c => ¬ (c = '"' ∨ c = '\'' ∨ c = '\\'))).filter (· ≠ [])
  joinWith " AND ".toList escapedWords

/-- The similarity the FTS5 path assigns to a row with raw score `rank`, given
the extreme raw scores of the result set (`if maxRank == minRank { 1.0 } else
(maxRank - rank) / (maxRank - minRank)`). -/
def normalizeSimFTS5 (minRank maxRank rank : ℚ) : ℚ :=
  if maxRank = minRank then 1 else (maxRank - rank) / (maxRank - minRank)

/-- The `threshold <= 0 || similarity >= threshold` test shared by every
retrieval path. -/
def passesThreshold (threshold sim : ℚ) : Bool := threshold ≤ 0 ∨ threshold ≤ sim

/-- Embeds `findRelevantChunksFTS5` from repository.go: empty-query branch (neutral
similarity `0.5`), empty formatted query branch, and the ranked branch with
min-max normalization over the returned result set (`minRank` is the first
returned score, `maxRank` the last — the rows arrive ordered by score) followed
by the threshold filter on the normalized similarities. -/
def findRelevantChunksFTS5 (db : DB) (query : List Char) (limit : Int)
    (threshold : ℚ) : List Chunk :=
  if trimSpace query = [] then
    ((db.chunksLimit limit).map fun c => { c with Similarity := 1/2 }).filter
      fun c => passesThreshold threshold c.Similarity
  else
    let ftsQuery := formatFTS5Query query
    if ftsQuery = [] then []
    else
      match db.ftsMatch ftsQuery limit with
      | [] => []
      | r0 :: rest =>
        let minRank := r0.2
        let maxRank := ((r0 :: rest).getLastD r0).2
        ((r0 :: rest).map fun r =>
          { r.1 with Similarity := normalizeSimFTS5 minRank maxRank r.2 }).filter
          fun c => passesThreshold threshold c.Similarity

/-- Embeds `calculateSimpleSimilarity` from repository.go: the fraction of the query's
(lower-cased, whitespace-split) words occurring as substrings of the lower-cased
content; `0` for a wordless query. -/
def calculateSimpleSimilarity (query content : List Char) : ℚ :=
  let queryWords := fields (toLowerStr query)
  let contentLower := toLowerStr content
  let matchCount := (queryWords.filter fun w => containsStr contentLower w).length
  if queryWords.length = 0 then 0 else (matchCount : ℚ) / (queryWords.length : ℚ)

/-- Embeds `findRelevantChunksLike` from repository.go (identical to the non-FTS5
build's `FindRelevantChunks`): pick the row source by word count, score each row
with `calculateSimpleSimilarity`, keep rows passing the threshold test. -/
def findRelevantChunksLike (db : DB) (query : List Char) (limit : Int)
    (threshold : ℚ) : List Chunk :=
  let queryWords := fields query
  let rows := match queryWords with
    | [] => db.chunksLimit limit
    | [w] => db.likeOne w limit
    | ws => db.likeMany ws limit
  (rows.map fun c =>
    { c with Similarity := calculateSimpleSimilarity query c.Content }).filter
    fun c => passesThreshold threshold c.Similarity

/-- Embeds `FindRelevantChunks` from repository.go: dispatch on the FTS5 capability flag
fixed at construction. -/
def FindRelevantChunks (db : DB) (fts5Enabled : Bool) (query : List Char)
    (limit : Int) (threshold : ℚ) : List Chunk :=
  if fts5Enabled then findRelevantChunksFTS5 db query limit threshold
  else findRelevantChunksLike db query limit threshold

theorem passesThreshold_mono (t1 t2 sim : ℚ) (h : t1 ≤ t2)
    (hp : passesThreshold t2 sim = true) : passesThreshold t1 sim = true := by
  unfold passesThreshold at hp ⊢
  simp only [decide_eq_true_eq] at hp ⊢
  rcases hp with h2 | h2
  · exact Or.inl (le_trans h h2)
  · rcases le_or_lt t1 0 with h1 | h1
    · exact Or.inl h1
    · exact Or.inr (le_trans h h2)

theorem filter_passes_length_mono (l : List Chunk) (t1 t2 : ℚ) (h : t1 ≤ t2) :
    (l.filter fun c => passesThreshold t2 c.Similarity).length ≤
      (l.filter fun c => passesThreshold t1 c.Similarity).length := by
  induction l with
  | nil => simp
  | cons a l ih =>
    simp only [List.filter_cons]
    by_cases h2 : passesThreshold t2 a.Similarity = true
    · rw [if_pos h2, if_pos (passesThreshold_mono t1 t2 _ h h2)]
      simpa using ih
    · rw [if_neg h2]
      by_cases h1 : passesThreshold t1 a.Similarity = true
      · rw [if_pos h1]
        exact le_trans ih (Nat.le_succ _)
      · rw [if_neg h1]
        exact ih

/-- C6: retrieval is threshold-monotone in both ranking modes — raising the
threshold never returns more fragments (with `threshold ≤ 0` meaning no
filtering). -/
theorem findRelevant_threshold_mono (db : DB) (fts5Enabled : Bool)
    (query : List Char) (limit : Int) (t1 t2 : ℚ) (h : t1 ≤ t2) :
    (FindRelevantChunks db fts5Enabled query limit t2).length ≤
      (FindRelevantChunks db fts5Enabled query limit t1).length := by
  unfold FindRelevantChunks
  cases fts5Enabled with
  | false =>
    simp only [Bool.false_eq_true, if_false]
    unfold findRelevantChunksLike
    exact filter_passes_length_mono _ t1 t2 h
  | true =>
    simp only [if_true]
    unfold findRelevantChunksFTS5
    split
    · exact filter_passes_length_mono _ t1 t2 h
    · dsimp only
      split
      · exact Nat.le_refl _
      · split
        · exact Nat.le_refl _
        · exact filter_passes_length_mono _ t1 t2 h

/-- Witness for C6 in both modes on a two-row database with thresholds
`1/2 ≤ 3/4`. -/
theorem findRelevant_threshold_mono_witness :
    ((1 : ℚ)/2 ≤ 3/4) ∧
    (FindRelevantChunks
        ⟨fun _ => [⟨['c'], ['d'], ['h', 'i'], 0⟩], fun _ _ => [⟨['c'], ['d'], ['h', 'i'], 0⟩],
          fun _ _ => [], fun _ _ => [(⟨['c'], ['d'], ['h', 'i'], 0⟩, -2), (⟨['e'], ['d'], ['h', 'o'], 0⟩, -1)]⟩
        true ['h'] 10 (3/4)).length ≤
      (FindRelevantChunks
        ⟨fun _ => [⟨['c'], ['d'], ['h', 'i'], 0⟩], fun _ _ => [⟨['c'], ['d'], ['h', 'i'], 0⟩],
          fun _ _ => [], fun _ _ => [(⟨['c'], ['d'], ['h', 'i'], 0⟩, -2), (⟨['e'], ['d'], ['h', 'o'], 0⟩, -1)]⟩
        true ['h'] 10 (1/2)).length ∧
    (FindRelevantChunks
        ⟨fun _ => [⟨['c'], ['d'], ['h', 'i'], 0⟩], fun _ _ => [⟨['c'], ['d'], ['h', 'i'], 0⟩],
          fun _ _ => [], fun _ _ => [(⟨['c'], ['d'], ['h', 'i'], 0⟩, -2), (⟨['e'], ['d'], ['h', 'o'], 0⟩, -1)]⟩
        false ['h'] 10 (3/4)).length ≤
      (FindRelevantChunks
        ⟨fun _ => [⟨['c'], ['d'], ['h', 'i'], 0⟩], fun _ _ => [⟨['c'], ['d'], ['h', 'i'], 0⟩],
          fun _ _ => [], fun _ _ => [(⟨['c'], ['d'], ['h', 'i'], 0⟩, -2), (⟨['e'], ['d'], ['h', 'o'], 0⟩, -1)]⟩
        false ['h'] 10 (1/2)).length :=
  ⟨by norm_num,
   findRelevant_threshold_mono _ true ['h'] 10 (1/2) (3/4) (by norm_num),
   findRelevant_threshold_mono _ false ['h'] 10 (1/2) (3/4) (by norm_num)⟩

theorem sorted_le_getLastD :
    ∀ (l : List (Chunk × ℚ)) (a : Chunk × ℚ),
    List.Pairwise (fun x y => x.2 ≤ y.2) (a :: l) →
    ∀ r ∈ a :: l, r.2 ≤ ((a :: l).getLastD a).2 := by
  intro l
  induction l with
  | nil =>
    intro a _ r hr
    simp only [List.mem_singleton] at hr
    subst hr
    exact le_refl _
  | cons b l' ih =>
    intro a hp r hr
    have hp' := (List.pairwise_cons.mp hp).2
    have hab : a.2 ≤ b.2 := (List.pairwise_cons.mp hp).1 b (List.mem_cons_self b l')
    have hlast : ((a :: b :: l').getLastD a) = ((b :: l').getLastD b) := by
      simp only [List.getLastD_cons]
    rw [hlast]
    rcases List.mem_cons.mp hr with rfl | hr'
    · exact le_trans hab (ih b hp' b (List.mem_cons_self _ _))
    · exact ih b hp' r hr'

theorem getLastD_cons_mem (l : List (Chunk × ℚ)) (a : Chunk × ℚ) :
    (a :: l).getLastD a ∈ a :: l := by
  rw [List.getLastD_cons]
  exact List.getLastD_mem_cons _ _

/-- C2: in FTS5 mode on a nonempty ranked result set (rows arrive ordered by raw
bm25 score), `minRank`/`maxRank` taken from the first/last row really are the
least/greatest raw scores; the most favorable (most negative) score normalizes to
similarity 1, the least favorable to 0 when the extremes differ; when every
returned score is equal every output fragment gets similarity 1; and the output
is exactly the threshold filter applied to the normalized similarities, with
`threshold ≤ 0` filtering nothing. -/
theorem fts5_minmax_normalization (db : DB) (query : List Char) (limit : Int)
    (threshold : ℚ) (r0 : Chunk × ℚ) (rest : List (Chunk × ℚ))
    (hne : trimSpace query ≠ [])
    (hq : formatFTS5Query query ≠ [])
    (hrows : db.ftsMatch (formatFTS5Query query) limit = r0 :: rest)
    (hsorted : List.Pairwise (fun x y => x.2 ≤ y.2) (r0 :: rest)) :
    (∀ r ∈ r0 :: rest, r0.2 ≤ r.2 ∧ r.2 ≤ ((r0 :: rest).getLastD r0).2) ∧
    normalizeSimFTS5 r0.2 ((r0 :: rest).getLastD r0).2 r0.2 = 1 ∧
    (r0.2 ≠ ((r0 :: rest).getLastD r0).2 →
      normalizeSimFTS5 r0.2 ((r0 :: rest).getLastD r0).2 ((r0 :: rest).getLastD r0).2 = 0) ∧
    ((∀ r ∈ r0 :: rest, r.2 = r0.2) →
      ∀ c ∈ findRelevantChunksFTS5 db query limit threshold, c.Similarity = 1) ∧
    findRelevantChunksFTS5 db query limit threshold =
      ((r0 :: rest).map fun r =>
        { r.1 with Similarity := normalizeSimFTS5 r0.2 ((r0 :: rest).getLastD r0).2 r.2 }).filter
        (fun c => passesThreshold threshold c.Similarity) ∧
    (threshold ≤ 0 →
      (findRelevantChunksFTS5 db query limit threshold).length = (r0 :: rest).length) := by
  have hout : findRelevantChunksFTS5 db query limit threshold =
      ((r0 :: rest).map fun r =>
        { r.1 with Similarity := normalizeSimFTS5 r0.2 ((r0 :: rest).getLastD r0).2 r.2 }).filter
        (fun c => passesThreshold threshold c.Similarity) := by
    unfold findRelevantChunksFTS5
    rw [if_neg hne]
    dsimp only
    rw [if_neg hq, hrows]
  refine ⟨?_, ?_, ?_, ?_, hout, ?_⟩
  · intro r hr
    constructor
    · rcases List.mem_cons.mp hr with rfl | hr'
      · exact le_refl _
      · exact (List.pairwise_cons.mp hsorted).1 r hr'
    · exact sorted_le_getLastD rest r0 hsorted r hr
  · unfold normalizeSimFTS5
    split
    · rfl
    · rename_i hne2
      exact div_self (sub_ne_zero.mpr hne2)
  · intro hminmax
    unfold normalizeSimFTS5
    rw [if_neg (fun h => hminmax h.symm)]
    rw [sub_self, zero_div]
  · intro hall c hc
    rw [hout] at hc
    have hc' := List.mem_of_mem_filter hc
    rcases List.mem_map.mp hc' with ⟨r, hr, rfl⟩
    have hlastmem := getLastD_cons_mem rest r0
    have hlast : ((r0 :: rest).getLastD r0).2 = r0.2 := hall _ hlastmem
    have hlast2 : ((r0 :: rest).getLast?.getD r0).2 = r0.2 := by simpa using hlast
    simp [normalizeSimFTS5, hall r hr, hlast2]
  · intro ht
    rw [hout]
    have : ∀ c ∈ ((r0 :: rest).map fun r =>
        { r.1 with Similarity := normalizeSimFTS5 r0.2 ((r0 :: rest).getLastD r0).2 r.2 }),
        passesThreshold threshold c.Similarity = true := by
      intro c _
      unfold passesThreshold
      simp only [decide_eq_true_eq]
      exact Or.inl ht
    rw [List.filter_eq_self.mpr this, List.length_map]

/-- A two-row database used to witness the FTS5 normalization theorem. -/
def dbW : DB :=
  ⟨fun _ => [], fun _ _ => [], fun _ _ => [],
   fun _ _ => [(⟨['c'], ['d'], ['h'], 0⟩, -2), (⟨['e'], ['f'], ['g'], 0⟩, -1)]⟩

/-- Witness for C2 on a two-row ranked result set with scores `-2 < -1`:
the best score normalizes to 1 and a zero threshold filters nothing. -/
theorem fts5_minmax_normalization_witness :
    normalizeSimFTS5 (-2 : ℚ) (-1) (-2) = 1 ∧
    (findRelevantChunksFTS5 dbW ['h'] 10 0).length = 2 := by
  have h := fts5_minmax_normalization dbW ['h'] 10 0
    (⟨['c'], ['d'], ['h'], 0⟩, -2) [(⟨['e'], ['f'], ['g'], 0⟩, -1)]
    (by decide) (by decide) rfl (by decide)
  exact ⟨by simpa using h.2.1, by simpa using h.2.2.2.2.2 (le_refl 0)⟩

/-! ## Resilient generation client (`GenerateResponse` retry loop in client.go)

One loop attempt is summarized by its observable outcome: a transport/read error,
an HTTP 200 whose body parses to an answer, an HTTP 200 whose body fails
`parseAIResponse` (invalid JSON, error payload, empty choices/content), or a
non-200 status.  The loop `for attempt := 0; attempt <= maxRetries; attempt++`
is embedded with fuel `maxRetries + 1 - attempt`, which is positive at every
reachable call, so the embedding is total and executable. -/

inductive AttemptOutcome where
  /-- transport error or body-read error -/
  | netErr : AttemptOutcome
  /-- HTTP 200, `parseAIResponse` succeeded with this answer -/
  | ok : List Char → AttemptOutcome
  /-- HTTP 200, `parseAIResponse` failed -/
  | okBad : AttemptOutcome
  /-- any non-200 HTTP status -/
  | http : Nat → AttemptOutcome
deriving DecidableEq, Repr

inductive GenError where
  | netErr : GenError
  | parseErr : GenError
  | rateLimited : GenError
  | serverErr : Nat → GenError
  | clientErr : Nat → GenError
deriving DecidableEq, Repr

/-- Observable result of the retry loop: the returned answer (on success), the
terminal error (`lastErr` on failure), and `metrics.Retries` — the index of the
last attempt executed. -/
structure LoopResult where
  answer : Option (List Char)
  err : Option GenError
  retries : Nat
deriving DecidableEq, Repr

/-- One classification step of the retry loop, mirroring the status dispatch of
`GenerateResponse`: 200 returns (or retries on a parse failure), 429 and ≥ 500
retry while `attempt < maxRetries`, any other status breaks immediately.  The
fuel-0 case is unreachable from `generateLoop` (fuel starts at
`maxRetries + 1 - attempt ≥ 1` and each retry keeps the invariant). -/
def generateLoopF (outcomes : Nat → AttemptOutcome) (maxRetries : Nat) :
    Nat → Nat → LoopResult
  | 0, attempt => ⟨none, none, attempt⟩
  | fuel + 1, attempt =>
    match outcomes attempt with
    | .netErr =>
      if attempt < maxRetries then generateLoopF outcomes maxRetries fuel (attempt + 1)
      else ⟨none, some .netErr, attempt⟩
    | .ok a => ⟨some a, none, attempt⟩
    | .okBad =>
      if attempt < maxRetries then generateLoopF outcomes maxRetries fuel (attempt + 1)
      else ⟨none, some .parseErr, attempt⟩
    | .http s =>
      if s = 429 then
        if attempt < maxRetries then generateLoopF outcomes maxRetries fuel (attempt + 1)
        else ⟨none, some .rateLimited, attempt⟩
      else if 500 ≤ s then
        if attempt < maxRetries then generateLoopF outcomes maxRetries fuel (attempt + 1)
        else ⟨none, some (.serverErr s), attempt⟩
      else ⟨none, some (.clientErr s), attempt⟩

/-- The retry loop of `GenerateResponse`, started at attempt 0. -/
def generateLoop (outcomes : Nat → AttemptOutcome) (maxRetries : Nat) : LoopResult :=
  generateLoopF outcomes maxRetries (maxRetries + 1) 0

/-- Embeds `maxRetries` as fixed by `NewAIClient`. -/
def numMaxRetries : Nat := 3

theorem generateLoopF_retry429 (outcomes : Nat → AttemptOutcome)
    (maxRetries fuel attempt : Nat) (h : outcomes attempt = .http 429)
    (hlt : attempt < maxRetries) :
    generateLoopF outcomes maxRetries (fuel + 1) attempt =
      generateLoopF outcomes maxRetries fuel (attempt + 1) := by
  simp only [generateLoopF, h]
  rw [if_pos trivial, if_pos hlt]

theorem generateLoopF_ok (outcomes : Nat → AttemptOutcome)
    (maxRetries fuel attempt : Nat) (a : List Char) (h : outcomes attempt = .ok a) :
    generateLoopF outcomes maxRetries (fuel + 1) attempt = ⟨some a, none, attempt⟩ := by
  simp only [generateLoopF, h]

theorem generateLoopF_client (outcomes : Nat → AttemptOutcome)
    (maxRetries fuel attempt s : Nat) (h : outcomes attempt = .http s)
    (h429 : s ≠ 429) (h500 : s < 500) :
    generateLoopF outcomes maxRetries (fuel + 1) attempt =
      ⟨none, some (.clientErr s), attempt⟩ := by
  simp only [generateLoopF, h]
  rw [if_neg h429, if_neg (by omega)]

theorem generateLoopF_serverAll (outcomes : Nat → AttemptOutcome)
    (maxRetries s : Nat) (h500 : 500 ≤ s)
    (hall : ∀ i, i ≤ maxRetries → outcomes i = .http s) :
    ∀ fuel attempt, attempt + fuel = maxRetries →
    generateLoopF outcomes maxRetries (fuel + 1) attempt =
      ⟨none, some (.serverErr s), maxRetries⟩ := by
  intro fuel
  induction fuel with
  | zero =>
    intro attempt hsum
    have ha : attempt = maxRetries := by omega
    simp only [generateLoopF, hall attempt (by omega)]
    rw [if_neg (by omega), if_pos h500, if_neg (by omega), ha]
  | succ fuel ih =>
    intro attempt hsum
    have hlt : attempt < maxRetries := by omega
    simp only [generateLoopF, hall attempt (by omega)]
    rw [if_neg (by omega), if_pos h500, if_pos hlt]
    exact ih (attempt + 1) (by omega)

/-- C3: (i) two 429 responses followed by a 200 with a valid answer return that
answer with recorded retry count 2 (under the client's `maxRetries = 3`);
(ii) a run of server errors (status ≥ 500) filling the entire attempt budget
`maxRetries + 1` ends in a terminal server error — with `maxRetries = 2`, three
consecutive 500s exhaust a budget of three attempts; (iii) a non-429 4xx on the
first attempt is an immediate terminal error with zero retries, never retried. -/
theorem retry_policy :
    (∀ (outcomes : Nat → AttemptOutcome) (a : List Char),
      outcomes 0 = .http 429 → outcomes 1 = .http 429 → outcomes 2 = .ok a →
      generateLoop outcomes numMaxRetries = ⟨some a, none, 2⟩) ∧
    (∀ (outcomes : Nat → AttemptOutcome) (maxRetries s : Nat),
      500 ≤ s → (∀ i, i ≤ maxRetries → outcomes i = .http s) →
      generateLoop outcomes maxRetries = ⟨none, some (.serverErr s), maxRetries⟩) ∧
    (∀ (outcomes : Nat → AttemptOutcome) (maxRetries s : Nat),
      400 ≤ s → s < 500 → s ≠ 429 → outcomes 0 = .http s →
      generateLoop outcomes maxRetries = ⟨none, some (.clientErr s), 0⟩) := by
  refine ⟨?_, ?_, ?_⟩
  · intro outcomes a h0 h1 h2
    show generateLoopF outcomes 3 (3 + 1) 0 = _
    rw [generateLoopF_retry429 outcomes 3 3 0 h0 (by omega)]
    show generateLoopF outcomes 3 (2 + 1) 1 = _
    rw [generateLoopF_retry429 outcomes 3 2 1 h1 (by omega)]
    show generateLoopF outcomes 3 (1 + 1) 2 = _
    rw [generateLoopF_ok outcomes 3 1 2 a h2]
  · intro outcomes maxRetries s h500 hall
    exact generateLoopF_serverAll outcomes maxRetries s h500 hall maxRetries 0 (by omega)
  · intro outcomes maxRetries s _ h500 h429 h0
    exact generateLoopF_client outcomes maxRetries maxRetries 0 s h0 h429 h500

/-- Witness for C3: the three scenarios on concrete outcome sequences. -/
theorem retry_policy_witness :
    generateLoop (fun n => if n < 2 then .http 429 else .ok ['o', 'k']) numMaxRetries =
      ⟨some ['o', 'k'], none, 2⟩ ∧
    generateLoop (fun _ => .http 500) 2 = ⟨none, some (.serverErr 500), 2⟩ ∧
    generateLoop (fun _ => .http 404) numMaxRetries = ⟨none, some (.clientErr 404), 0⟩ :=
  ⟨retry_policy.1 _ ['o', 'k'] rfl rfl rfl,
   retry_policy.2.1 _ 2 500 (by omega) (fun _ _ => rfl),
   retry_policy.2.2 _ numMaxRetries 404 (by omega) (by omega) (by omega) rfl⟩

/-- Embeds `GenerateResponse` from client.go, as a function of the observable inputs:
the cache directory state, whether a cache write would succeed (`writeOk` —
the code only logs a failed `saveCachedResponse` and continues), the query, the
context fragments, and the per-attempt outcomes of the remote call.  Prompt
construction and JSON marshalling are pure, infallible for the modelled inputs,
and feed only the remote call, so they are absorbed into the attempt outcomes.
Returns (answer, terminal error, cache state afterwards). -/
def GenerateResponse (md5hex : List Char → List Char) (st : CacheState) (writeOk : Bool)
    (query : List Char) (contextChunks : List Chunk) (outcomes : Nat → AttemptOutcome)
    (maxRetries : Nat) : Option (List Char) × Option GenError × CacheState :=
  match getCachedResponse st (getCacheKey md5hex (sanitizeInput query 1000) contextChunks) with
  | some cached => (some cached, none, st)
  | none =>
    match (generateLoop outcomes maxRetries).answer with
    | some response =>
      (some response, none,
        if writeOk then
          saveCachedResponse st (getCacheKey md5hex (sanitizeInput query 1000) contextChunks)
            response
        else st)
    | none => (none, (generateLoop outcomes maxRetries).err, st)

/-- C9: when the remote model produces a successful answer (and the cache did not
already hold one), a failing cache write never fails the call — the client still
returns exactly that answer, with no terminal error, the same as when the write
succeeds. -/
theorem cacheWriteFailure_not_propagated (md5hex : List Char → List Char)
    (st : CacheState) (query : List Char) (contextChunks : List Chunk)
    (outcomes : Nat → AttemptOutcome) (maxRetries : Nat) (a : List Char)
    (hmiss : getCachedResponse st
      (getCacheKey md5hex (sanitizeInput query 1000) contextChunks) = none)
    (hsucc : (generateLoop outcomes maxRetries).answer = some a) :
    (GenerateResponse md5hex st false query contextChunks outcomes maxRetries).1 = some a ∧
    (GenerateResponse md5hex st false query contextChunks outcomes maxRetries).2.1 = none ∧
    (GenerateResponse md5hex st false query contextChunks outcomes maxRetries).1 =
      (GenerateResponse md5hex st true query contextChunks outcomes maxRetries).1 := by
  unfold GenerateResponse
  rw [hmiss, hsucc]
  exact ⟨rfl, rfl, rfl⟩

/-- Witness for C9: empty cache, every attempt answering `"hi"`. -/
theorem cacheWriteFailure_not_propagated_witness :
    (GenerateResponse id emptyCache false ['q'] [] (fun _ => .ok ['h', 'i'])
      numMaxRetries).1 = some ['h', 'i'] ∧
    (GenerateResponse id emptyCache false ['q'] [] (fun _ => .ok ['h', 'i'])
      numMaxRetries).2.1 = none ∧
    (GenerateResponse id emptyCache false ['q'] [] (fun _ => .ok ['h', 'i'])
      numMaxRetries).1 =
      (GenerateResponse id emptyCache true ['q'] [] (fun _ => .ok ['h', 'i'])
        numMaxRetries).1 :=
  cacheWriteFailure_not_propagated id emptyCache ['q'] [] (fun _ => .ok ['h', 'i'])
    numMaxRetries ['h', 'i'] rfl rfl

/-! ## Document store (`SaveDocument` in repository.go)

The two SQLite tables are modelled as lists of rows; `id` is a primary key in
both, so an `INSERT` with an already-present id fails with a constraint
violation.  `SaveDocument` runs inside one transaction with a deferred
rollback: on any failed insert the function returns the error and the pending
writes are discarded, so the caller-visible store is returned unchanged; only
`tx.Commit()` publishes the pending state. -/

structure Store where
  documents : List Document
  chunksTab : List Chunk
deriving DecidableEq, Repr

/-- The chunk id `fmt.Sprintf("%s_chunk_%d", doc.ID, i)`. -/
def chunkIDFor (docID : List Char) (i : Nat) : List Char :=
  docID ++ "_chunk_".toList ++ (toString i).toList

/-- The chunk `INSERT` loop of `SaveDocument`, threading the pending chunk
table: each insert fails on a duplicate chunk id (primary-key violation),
aborting the transaction. -/
def insertChunks (docID : List Char) : List Chunk → Nat → List (List Char) →
    Option (List Chunk)
  | pending, _, [] => some pending
  | pending, i, text :: rest =>
    let cid := chunkIDFor docID i
    if pending.any fun c => c.ID = cid then none
    else insertChunks docID (pending ++ [⟨cid, docID, text, 0⟩]) (i + 1) rest

/-- Embeds `SaveDocument` from repository.go: insert the document row, chunk the
content at size 500, insert one row per fragment, commit; any constraint
violation rolls the transaction back (the original store is returned together
with the error flag `true`). -/
def SaveDocument (st : Store) (doc : Document) : Store × Bool :=
  if st.documents.any fun d => d.ID = doc.ID then (st, true)
  else
    match insertChunks doc.ID st.chunksTab 0 (splitIntoChunks doc.Content 500) with
    | none => (st, true)
    | some chunksTab2 => ({ documents := st.documents ++ [doc], chunksTab := chunksTab2 }, false)

/-- C10: saving a document whose ID is already present fails and leaves the
store — both the documents table and the chunks table — exactly as it was
(the failed transaction is rolled back). -/
theorem saveDocument_duplicate_rollback (st : Store) (doc : Document)
    (hdup : ∃ d ∈ st.documents, d.ID = doc.ID) :
    SaveDocument st doc = (st, true) := by
  unfold SaveDocument
  rw [if_pos ?_]
  rcases hdup with ⟨d, hd, hid⟩
  exact List.any_eq_true.mpr ⟨d, hd, by simpa using hid⟩

/-- Witness for C10: re-saving a document with the already-stored ID `"a"`. -/
theorem saveDocument_duplicate_rollback_witness :
    SaveDocument ⟨[⟨['a'], ['t'], ['x']⟩], []⟩ ⟨['a'], ['u'], ['y']⟩ =
      (⟨[⟨['a'], ['t'], ['x']⟩], []⟩, true) :=
  saveDocument_duplicate_rollback ⟨[⟨['a'], ['t'], ['x']⟩], []⟩ ⟨['a'], ['u'], ['y']⟩
    ⟨⟨['a'], ['t'], ['x']⟩, List.mem_singleton.mpr rfl, rfl⟩

end RAG
